import Mathlib

/-!
Shallow embedding of the MetaBE investment-platform core:
the wallet ledger (src/models/wallet.py), the referral graph and commission
distributor (src/models/referral.py), the investment models
(src/models/investment.py), the investment service
(src/services/investment_service.py) and the purchase endpoint
(src/api/investments.py).

Conventions of the embedding:
* Decimal amounts are modelled as rationals (exact arithmetic).
* Calendar dates are modelled as integers (day numbers); nullable date
  columns that every creation path populates (returns_start_date,
  maturity_date) are plain Int, while last_return_date, which genuinely
  alternates between NULL and a date, is an Option Int.
* A SQL table is a list of rows; a query .filter_by(...).first() is a
  first-match scan, and in-place ORM mutation of the found row is an
  update of the first matching list entry.
* A Python function that raises or returns a failure dict is modelled
  with Option / Except.
-/

/-- InvestmentStatus enum from src/models/investment.py. -/
inductive InvestmentStatus
  | ACTIVE
  | MATURED
  | CANCELLED
deriving DecidableEq, Repr

/-- PackageStatus enum from src/models/investment.py. -/
inductive PackageStatus
  | ACTIVE
  | CANCELLED
deriving DecidableEq, Repr

/-- InvestmentPackage row (the columns the core logic reads). -/
structure InvestmentPackage where
  id : Nat
  min_amount : Rat
  max_amount : Option Rat
  total_return_percentage : Rat
  duration_days : Int
  end_date : Option Int
  status : PackageStatus
deriving DecidableEq, Repr

/-- UserInvestment row.  The package relationship is inlined as an
optional package value (None models a dangling package_id, which
InvestmentService.calculate_daily_return guards against). -/
structure UserInvestment where
  id : Nat
  user_id : Nat
  amount_invested : Rat
  returns_start_date : Int
  maturity_date : Int
  total_returns_paid : Rat
  last_return_date : Option Int
  status : InvestmentStatus
  package : Option InvestmentPackage
deriving DecidableEq, Repr

/-- InvestmentReturn row: the per-day accrual log. -/
structure InvestmentReturn where
  investment_id : Nat
  return_date : Int
  return_amount : Rat
  days_since_start : Int
deriving DecidableEq, Repr

/-- Wallet row from src/models/wallet.py. -/
structure Wallet where
  user_id : Nat
  wallet_type : String
  balance : Rat
  locked_balance : Rat
deriving DecidableEq, Repr

/-- Audit row written by Wallet.log_wallet_transaction. -/
structure LedgerTx where
  user_id : Nat
  transaction_type : String
  wallet_type : String
  amount : Rat
deriving DecidableEq, Repr

/-- User row (the columns the referral logic reads). -/
structure UserRec where
  id : Nat
  sponsor_id : Option Nat
  is_active : Bool
  total_earnings : Rat
deriving DecidableEq, Repr

/-- Referral row from src/models/referral.py. -/
structure ReferralEdge where
  referrer_id : Nat
  referred_id : Nat
  level : Nat
  is_active : Bool
  total_commission_earned : Rat
deriving DecidableEq, Repr

/-- Element of the commissions_distributed list returned by
Referral.distribute_commissions. -/
structure CommissionRecord where
  referrer_id : Nat
  level : Nat
  amount : Rat
  wallet_type : String
deriving DecidableEq, Repr

abbrev WalletStore := List Wallet

/-- Wallet.available_balance property: balance - locked_balance. -/
def Wallet.available_balance (w : Wallet) : Rat :=
  w.balance - w.locked_balance

/-- Wallet.query.filter_by(user_id=uid, wallet_type=wt).first(). -/
def find_wallet : WalletStore → Nat → String → Option Wallet
  | [], _, _ => none
  | w :: ws, uid, wt =>
      if w.user_id = uid ∧ w.wallet_type = wt then some w
      else find_wallet ws uid wt

/-- In-place ORM mutation balance += c of the first wallet row matching
(uid, wt); a no-op when no row matches. -/
def adjust_balance : WalletStore → Nat → String → Rat → WalletStore
  | [], _, _, _ => []
  | w :: ws, uid, wt, c =>
      if w.user_id = uid ∧ w.wallet_type = wt then
        { w with balance := w.balance + c } :: ws
      else
        w :: adjust_balance ws uid wt c

/-- Wallet.get_income_wallet_types(). -/
def get_income_wallet_types : List String :=
  ["total_gain", "level_bonus", "total_referral"]

/-- The balance-mutation effect of Wallet.add_balance on the store: bump
the credited wallet, then (Wallet.update_total_income_wallet) bump the
same user total_income wallet when the credited type is an income type
and a total_income wallet exists. -/
def apply_add_balance (s : WalletStore) (uid : Nat) (wt : String) (amount : Rat) :
    WalletStore :=
  let s1 := adjust_balance s uid wt amount
  if wt ∈ get_income_wallet_types then
    adjust_balance s1 uid "total_income" amount
  else s1

/-- Wallet.add_balance called on the wallet (uid, wt): none models the
ValueError for a non-positive amount, or the absence of any wallet object
to call the method on; otherwise the mutated store together with the
audit transaction appended by Wallet.log_wallet_transaction. -/
def add_balance (s : WalletStore) (uid : Nat) (wt : String) (amount : Rat) :
    Option (WalletStore × LedgerTx) :=
  match find_wallet s uid wt with
  | none => none
  | some _ =>
      if amount ≤ 0 then none
      else
        some (apply_add_balance s uid wt amount,
              { user_id := uid, transaction_type := "credit",
                wallet_type := wt, amount := amount })

/-- Wallet.subtract_balance: ValueError when amount ≤ 0 or
available_balance < amount. -/
def Wallet.subtract_balance (w : Wallet) (amount : Rat) : Option Wallet :=
  if amount ≤ 0 then none
  else if w.available_balance < amount then none
  else some { w with balance := w.balance - amount }

/-- Wallet.lock_balance: ValueError when amount ≤ 0 or
available_balance < amount. -/
def Wallet.lock_balance (w : Wallet) (amount : Rat) : Option Wallet :=
  if amount ≤ 0 then none
  else if w.available_balance < amount then none
  else some { w with locked_balance := w.locked_balance + amount }

/-- Wallet.unlock_balance: ValueError when amount ≤ 0 or
locked_balance < amount. -/
def Wallet.unlock_balance (w : Wallet) (amount : Rat) : Option Wallet :=
  if amount ≤ 0 then none
  else if w.locked_balance < amount then none
  else some { w with locked_balance := w.locked_balance - amount }

/-- The find-or-create pattern used by the commission distributor, the
accrual engine and the settlement path: query the wallet, and when it is
absent add a fresh zero-balance row. -/
def find_or_create_wallet (s : WalletStore) (uid : Nat) (wt : String) : WalletStore :=
  match find_wallet s uid wt with
  | some _ => s
  | none => s ++ [{ user_id := uid, wallet_type := wt, balance := 0, locked_balance := 0 }]

/-- Balance of the wallet (uid, wt) in the store, 0 when absent. -/
def balanceOf (s : WalletStore) (uid : Nat) (wt : String) : Rat :=
  match find_wallet s uid wt with
  | some w => w.balance
  | none => 0

/-- User.query.get(uid). -/
def find_user : List UserRec → Nat → Option UserRec
  | [], _ => none
  | u :: us, uid => if u.id = uid then some u else find_user us uid

/-- In-place ORM mutation referrer.total_earnings += c of the first user
row with the given id. -/
def add_user_earnings : List UserRec → Nat → Rat → List UserRec
  | [], _, _ => []
  | u :: us, uid, c =>
      if u.id = uid then { u with total_earnings := u.total_earnings + c } :: us
      else u :: add_user_earnings us uid c

/-- UserInvestment.expected_total_return property:
amount_invested * (package.total_return_percentage / 100). -/
def expected_total_return (inv : UserInvestment) (pkg : InvestmentPackage) : Rat :=
  inv.amount_invested * (pkg.total_return_percentage / 100)

/-- UserInvestment.returns_remaining property:
max(0, expected_total_return - total_returns_paid). -/
def returns_remaining (inv : UserInvestment) (pkg : InvestmentPackage) : Rat :=
  max 0 (expected_total_return inv pkg - inv.total_returns_paid)

/-- InvestmentService.calculate_daily_return: 0 when the package is
missing, has a non-positive duration or a negative return percentage;
otherwise the daily spread clamped by the remaining expected return and
floored at 0. -/
def calculate_daily_return (inv : UserInvestment) : Rat :=
  match inv.package with
  | none => 0
  | some pkg =>
      if pkg.duration_days ≤ 0 then 0
      else if pkg.total_return_percentage < 0 then 0
      else
        let total_return := inv.amount_invested * (pkg.total_return_percentage / 100)
        let daily_return := total_return / (pkg.duration_days : Rat)
        let remaining_return := expected_total_return inv pkg - inv.total_returns_paid
        max 0 (min daily_return remaining_return)

/-- The SQL filter of InvestmentService.get_eligible_investments, as a
per-row boolean predicate: ACTIVE, returns started, not yet matured
(strict), and no return received on or after the calculation date. -/
def eligible_for_return (inv : UserInvestment) (d : Int) : Bool :=
  decide (inv.status = InvestmentStatus.ACTIVE) &&
  decide (inv.returns_start_date ≤ d) &&
  decide (d < inv.maturity_date) &&
  (match inv.last_return_date with
   | none => true
   | some l => decide (l < d))

/-- InvestmentService.get_eligible_investments(calculation_date). -/
def get_eligible_investments (d : Int) (invs : List UserInvestment) :
    List UserInvestment :=
  invs.filter (fun inv => eligible_for_return inv d)

/-- The position-row effect of InvestmentService.process_investment_return:
total_returns_paid += amount, last_return_date := d, and one new
InvestmentReturn row with days_since_start = (d - returns_start_date) + 1.
(The total_gain wallet credit and the Income row written on the same path
are the store-level add_balance above.) -/
def process_investment_return (inv : UserInvestment) (amount : Rat) (d : Int) :
    UserInvestment × InvestmentReturn :=
  ({ inv with
      total_returns_paid := inv.total_returns_paid + amount,
      last_return_date := some d },
   { investment_id := inv.id, return_date := d, return_amount := amount,
     days_since_start := d - inv.returns_start_date + 1 })

/-- One iteration of the accrual loop of
InvestmentService.calculate_daily_investment_returns for a single
position: positions outside the eligibility filter, and eligible
positions whose computed amount is not positive, are left untouched and
log no row. -/
def accrue_investment (d : Int) (inv : UserInvestment) :
    UserInvestment × List InvestmentReturn :=
  if eligible_for_return inv d then
    let amt := calculate_daily_return inv
    if 0 < amt then
      let r := process_investment_return inv amt d
      (r.1, [r.2])
    else (inv, [])
  else (inv, [])

/-- One row of InvestmentService.update_investment_statuses: an ACTIVE
position whose maturity_date has passed becomes MATURED. -/
def update_investment_status (d : Int) (inv : UserInvestment) : UserInvestment :=
  if inv.status = InvestmentStatus.ACTIVE ∧ inv.maturity_date ≤ d then
    { inv with status := InvestmentStatus.MATURED }
  else inv

/-- InvestmentService.calculate_daily_investment_returns on date d over
the position table: accrue each eligible position independently, then run
the maturity sweep; returns the updated table and the new
InvestmentReturn rows. -/
def calculate_daily_investment_returns (d : Int) (invs : List UserInvestment) :
    List UserInvestment × List InvestmentReturn :=
  let processed := invs.map (accrue_investment d)
  ((processed.map Prod.fst).map (update_investment_status d),
   (processed.map Prod.snd).flatten)

/-- InvestmentService.manual_distribute_returns on a fetched position:
rejected (none) when the amount is not positive, when the package
relationship is broken (the returns_remaining property raises), or when
the amount exceeds the remaining returns; otherwise the shared
process_investment_return path runs with d = today. -/
def manual_distribute_returns (inv : UserInvestment) (amount : Rat) (today : Int) :
    Option (UserInvestment × InvestmentReturn) :=
  if amount ≤ 0 then none
  else
    match inv.package with
    | none => none
    | some pkg =>
        if returns_remaining inv pkg < amount then none
        else some (process_investment_return inv amount today)

/-- Result dict of InvestmentService.settle_matured_investment. -/
structure SettlementResult where
  investment : UserInvestment
  dest_wallet : Option Wallet
  principal_returned : Rat
  settlement_fee : Rat
deriving DecidableEq, Repr

/-- InvestmentService.settle_matured_investment on a fetched position:
rejects a non-MATURED position; available_fund disposition credits
principal - fee to the (possibly freshly created) available_fund wallet;
keep_invested moves no money; both mark the position CANCELLED; an
unknown disposition is rejected before any state change. -/
def settle_matured_investment (inv : UserInvestment) (dest : Option Wallet)
    (settlement_option : String) (settlement_fee_percent : Rat) :
    Except String SettlementResult :=
  if inv.status ≠ InvestmentStatus.MATURED then
    Except.error "Investment is not matured yet"
  else
    let principal_amount := inv.amount_invested
    let settlement_fee :=
      if 0 < settlement_fee_percent then
        principal_amount * settlement_fee_percent / 100
      else 0
    let net_principal := principal_amount - settlement_fee
    if settlement_option = "available_fund" then
      let w := dest.getD
        { user_id := inv.user_id, wallet_type := "available_fund",
          balance := 0, locked_balance := 0 }
      Except.ok
        { investment := { inv with status := InvestmentStatus.CANCELLED },
          dest_wallet := some { w with balance := w.balance + net_principal },
          principal_returned := net_principal,
          settlement_fee := settlement_fee }
    else if settlement_option = "keep_invested" then
      Except.ok
        { investment := { inv with status := InvestmentStatus.CANCELLED },
          dest_wallet := dest,
          principal_returned := principal_amount,
          settlement_fee := settlement_fee }
    else
      Except.error "Invalid settlement option"

/-- InvestmentPackage.is_available_for_investment property. -/
def is_available_for_investment (pkg : InvestmentPackage) (today : Int) : Bool :=
  decide (pkg.status = PackageStatus.ACTIVE) &&
  (match pkg.end_date with
   | none => true
   | some ed => decide (today ≤ ed))

/-- The purchase_investment endpoint of src/api/investments.py, after the
package and the user row and the row-locked available_fund wallet have
been fetched: the validation chain in source order, then the state
change.  The insufficient-funds gate compares the raw wallet balance with
the amount and the debit is a raw balance decrement, exactly as in the
source.  The dead total_capacity branch (the model has no such column) is
omitted. -/
def purchase_investment (today : Int) (pkg : InvestmentPackage)
    (user_is_active : Bool) (w : Wallet) (today_investments : Rat)
    (amount : Rat) : Except String (Wallet × UserInvestment) :=
  if amount ≤ 0 then Except.error "Amount must be greater than 0"
  else if ¬ is_available_for_investment pkg today then
    Except.error "Investment package is not available"
  else if (match pkg.end_date with
           | some ed => decide (ed < today)
           | none => false) then
    Except.error "Package is no longer accepting new investments"
  else if amount < pkg.min_amount then
    Except.error "Minimum investment amount"
  else if (match pkg.max_amount with
           | some m => decide (m < amount)
           | none => false) then
    Except.error "Maximum investment amount"
  else if user_is_active = false then
    Except.error "Account is deactivated"
  else if w.balance < amount then
    Except.error "Insufficient available funds"
  else if 50000 < today_investments + amount then
    Except.error "Daily investment limit exceeded"
  else
    Except.ok
      ({ w with balance := w.balance - amount },
       { id := 0, user_id := w.user_id, amount_invested := amount,
         returns_start_date := today + 1,
         maturity_date := today + 1 + pkg.duration_days,
         total_returns_paid := 0, last_return_date := none,
         status := InvestmentStatus.ACTIVE, package := some pkg })

/-- Referral.calculate_commission: amount * rate(level) / 100, where the
rate table defaults to {1:10, 2:5, 3:3, 4:2, 5:1} with 0 for any other
level. -/
def calculate_commission (investment_amount : Rat) (level : Nat)
    (rates : Nat → Rat) : Rat :=
  investment_amount * rates level / 100

/-- The default commission rate table of Referral.calculate_commission. -/
def default_commission_rates : Nat → Rat
  | 1 => 10
  | 2 => 5
  | 3 => 3
  | 4 => 2
  | 5 => 1
  | _ => 0

/-- The wallet type a commission at the given level is routed to:
level 1 goes to total_referral, every other level to level_bonus. -/
def commission_wallet_type (level : Nat) : String :=
  if level = 1 then "total_referral" else "level_bonus"

/-- The loop body sequence of Referral.distribute_commissions over the
active upline edges (the query already filters is_active edges): for each
edge compute the commission; skip it unless it is positive and the
referrer exists and is active; otherwise find-or-create the routed
wallet, credit it through the add_balance path (the positive-amount guard
of add_balance holds here), accumulate the commission on the edge, bump
the referrer total_earnings, and append a distribution record. -/
def distribute_over (amount : Rat) (rates : Nat → Rat) :
    List UserRec → WalletStore → List ReferralEdge →
    List UserRec × WalletStore × List ReferralEdge × List CommissionRecord
  | users, store, [] => (users, store, [], [])
  | users, store, e :: rest =>
      let c := calculate_commission amount e.level rates
      if 0 < c then
        match find_user users e.referrer_id with
        | some u =>
            if u.is_active then
              let wt := commission_wallet_type e.level
              let store1 := find_or_create_wallet store e.referrer_id wt
              let store2 := apply_add_balance store1 e.referrer_id wt c
              let users1 := add_user_earnings users e.referrer_id c
              let r := distribute_over amount rates users1 store2 rest
              (r.1, r.2.1,
               { e with total_commission_earned := e.total_commission_earned + c }
                 :: r.2.2.1,
               { referrer_id := e.referrer_id, level := e.level, amount := c,
                 wallet_type := wt } :: r.2.2.2)
            else
              let r := distribute_over amount rates users store rest
              (r.1, r.2.1, e :: r.2.2.1, r.2.2.2)
        | none =>
            let r := distribute_over amount rates users store rest
            (r.1, r.2.1, e :: r.2.2.1, r.2.2.2)
      else
        let r := distribute_over amount rates users store rest
        (r.1, r.2.1, e :: r.2.2.1, r.2.2.2)

/-- Referral.distribute_commissions: the upline edges of the buying user
are fetched with is_active = True and then walked by distribute_over. -/
def distribute_commissions (users : List UserRec) (store : WalletStore)
    (upline : List ReferralEdge) (amount : Rat) (rates : Nat → Rat) :
    List UserRec × WalletStore × List ReferralEdge × List CommissionRecord :=
  distribute_over amount rates users store (upline.filter (fun e => e.is_active))

/-- The while loop of Referral.create_referral_chain, with the remaining
level budget (max_levels - level + 1) as explicit fuel: stop when the
budget is exhausted, when there is no further sponsor, or when a sponsor
id repeats (cycle guard); otherwise emit one edge and follow the stored
sponsor pointer. -/
def create_referral_chain_loop (users : List UserRec) (new_user_id : Nat) :
    Nat → Option Nat → Nat → List Nat → List ReferralEdge
  | 0, _, _, _ => []
  | _ + 1, none, _, _ => []
  | fuel + 1, some sid, level, visited =>
      if sid ∈ visited then []
      else
        { referrer_id := sid, referred_id := new_user_id, level := level,
          is_active := true, total_commission_earned := 0 } ::
        create_referral_chain_loop users new_user_id fuel
          ((find_user users sid).bind (fun u => u.sponsor_id))
          (level + 1) (sid :: visited)

/-- Referral.create_referral_chain(sponsor_id, new_user_id, max_levels):
an empty chain without a sponsor, else the loop starting at level 1 with
an empty visited set. -/
def create_referral_chain (users : List UserRec) (sponsor_id : Option Nat)
    (new_user_id : Nat) (max_levels : Nat) : List ReferralEdge :=
  match sponsor_id with
  | none => []
  | some sid => create_referral_chain_loop users new_user_id max_levels (some sid) 1 []


/-- Concrete package fixture: min 10, max 10000, 25 percent total return
over 180 days, ACTIVE, no end date. -/
def pkgA : InvestmentPackage :=
  { id := 1, min_amount := 10, max_amount := some 10000,
    total_return_percentage := 25, duration_days := 180,
    end_date := none, status := PackageStatus.ACTIVE }

/-- Concrete position fixture: a fresh ACTIVE 200-unit position in pkgA. -/
def invA : UserInvestment :=
  { id := 1, user_id := 1, amount_invested := 200, returns_start_date := 0,
    maturity_date := 181, total_returns_paid := 0, last_return_date := none,
    status := InvestmentStatus.ACTIVE, package := some pkgA }

/-- Concrete position fixture: a MATURED 200-unit position in pkgA. -/
def invM : UserInvestment :=
  { id := 2, user_id := 3, amount_invested := 200, returns_start_date := 0,
    maturity_date := 180, total_returns_paid := 50, last_return_date := some 179,
    status := InvestmentStatus.MATURED, package := some pkgA }

/-- invA after a manual distribution of 10 on day 3. -/
def invA_stamped : UserInvestment :=
  { invA with total_returns_paid := 0 + 10, last_return_date := some 3 }

/-- The InvestmentReturn row logged by that manual distribution. -/
def rowA : InvestmentReturn :=
  { investment_id := 1, return_date := 3, return_amount := 10,
    days_since_start := 3 - 0 + 1 }

/-- Concrete user table with a sponsor cycle: 10 sponsors 11 and 11
sponsors 10. -/
def usersCyc : List UserRec :=
  [{ id := 10, sponsor_id := some 11, is_active := true, total_earnings := 0 },
   { id := 11, sponsor_id := some 10, is_active := true, total_earnings := 0 }]

/-- Concrete user table for the commission scenario: referrers 1 and 2,
both active. -/
def usersC3 : List UserRec :=
  [{ id := 1, sponsor_id := none, is_active := true, total_earnings := 0 },
   { id := 2, sponsor_id := some 1, is_active := true, total_earnings := 0 }]

/-- Concrete upline of buyer 100: referrer 1 at level 1 and referrer 2 at
level 2, both edges active. -/
def uplineC3 : List ReferralEdge :=
  [{ referrer_id := 1, referred_id := 100, level := 1, is_active := true,
     total_commission_earned := 0 },
   { referrer_id := 2, referred_id := 100, level := 2, is_active := true,
     total_commission_earned := 0 }]

/-- Concrete wallet-store fixture for the credit path: one total_gain and
one total_income wallet of user 1. -/
def storeA : WalletStore :=
  [{ user_id := 1, wallet_type := "total_gain", balance := 5, locked_balance := 0 },
   { user_id := 1, wallet_type := "total_income", balance := 7, locked_balance := 0 }]


lemma find_wallet_adjust_self (s : WalletStore) (uid : Nat) (wt : String) (c : Rat) :
    find_wallet (adjust_balance s uid wt c) uid wt
      = (find_wallet s uid wt).map (fun w => { w with balance := w.balance + c }) := by
  induction s with
  | nil => rfl
  | cons w ws ih =>
      by_cases h : w.user_id = uid ∧ w.wallet_type = wt
      · simp [find_wallet, adjust_balance, h]
      · simp [find_wallet, adjust_balance, h, ih]

lemma find_wallet_adjust_ne (s : WalletStore) (uid : Nat) (wt : String) (c : Rat)
    (uid' : Nat) (wt' : String) (h : ¬(uid' = uid ∧ wt' = wt)) :
    find_wallet (adjust_balance s uid wt c) uid' wt' = find_wallet s uid' wt' := by
  have h3 : ¬(uid = uid' ∧ wt = wt') := by
    rintro ⟨ha, hb⟩
    exact h ⟨ha.symm, hb.symm⟩
  induction s with
  | nil => rfl
  | cons w ws ih =>
      by_cases h1 : w.user_id = uid ∧ w.wallet_type = wt
      · have h2 : ¬(w.user_id = uid' ∧ w.wallet_type = wt') := by
          rintro ⟨ha, hb⟩
          exact h ⟨ha.symm.trans h1.1, hb.symm.trans h1.2⟩
        simp [find_wallet, adjust_balance, h1, h2, h3]
      · by_cases h2 : w.user_id = uid' ∧ w.wallet_type = wt'
        · simp [find_wallet, adjust_balance, h1, h2, h3, h, ih]
        · simp [find_wallet, adjust_balance, h1, h2, h3, h, ih]

lemma find_wallet_key (s : WalletStore) (uid : Nat) (wt : String) (w : Wallet)
    (h : find_wallet s uid wt = some w) :
    w.user_id = uid ∧ w.wallet_type = wt := by
  induction s with
  | nil => simp [find_wallet] at h
  | cons v vs ih =>
      by_cases h1 : v.user_id = uid ∧ v.wallet_type = wt
      · simp only [find_wallet, if_pos h1, Option.some.injEq] at h
        exact h ▸ h1
      · simp only [find_wallet, if_neg h1] at h
        exact ih h

lemma find_wallet_append (s t : WalletStore) (uid : Nat) (wt : String) :
    find_wallet (s ++ t) uid wt =
      match find_wallet s uid wt with
      | some w => some w
      | none => find_wallet t uid wt := by
  induction s with
  | nil => simp [find_wallet]
  | cons w ws ih =>
      by_cases h : w.user_id = uid ∧ w.wallet_type = wt
      · simp [find_wallet, h]
      · simp [find_wallet, h, ih]

lemma find_or_create_of_found (s : WalletStore) (uid : Nat) (wt : String)
    (w : Wallet) (h : find_wallet s uid wt = some w) :
    find_or_create_wallet s uid wt = s := by
  simp [find_or_create_wallet, h]

lemma find_wallet_foc_self (s : WalletStore) (uid : Nat) (wt : String) :
    ∃ w, find_wallet (find_or_create_wallet s uid wt) uid wt = some w
         ∧ w.balance = balanceOf s uid wt
         ∧ w.user_id = uid ∧ w.wallet_type = wt := by
  unfold find_or_create_wallet
  cases h : find_wallet s uid wt with
  | some w =>
      have hk := find_wallet_key s uid wt w h
      exact ⟨w, h, by simp [balanceOf, h], hk.1, hk.2⟩
  | none =>
      refine ⟨{ user_id := uid, wallet_type := wt, balance := 0, locked_balance := 0 },
              ?_, by simp [balanceOf, h], rfl, rfl⟩
      rw [find_wallet_append, h]
      simp [find_wallet]

lemma find_wallet_foc_other (s : WalletStore) (uid : Nat) (wt : String)
    (uid' : Nat) (wt' : String) (h : ¬(uid' = uid ∧ wt' = wt)) :
    find_wallet (find_or_create_wallet s uid wt) uid' wt' = find_wallet s uid' wt' := by
  unfold find_or_create_wallet
  cases hf : find_wallet s uid wt with
  | some w => rfl
  | none =>
      rw [find_wallet_append]
      cases hg : find_wallet s uid' wt' with
      | some w => rfl
      | none =>
          have : ¬(uid = uid' ∧ wt = wt') := by
            rintro ⟨ha, hb⟩
            exact h ⟨ha.symm, hb.symm⟩
          simp [find_wallet, this]

lemma mem_income_ne_total_income (wt : String) (h : wt ∈ get_income_wallet_types) :
    wt ≠ "total_income" := by
  simp only [get_income_wallet_types, List.mem_cons, List.mem_singleton,
    List.not_mem_nil, or_false] at h
  rcases h with h | h | h <;> subst h <;> decide

lemma find_wallet_apply_add_self (s : WalletStore) (uid : Nat) (wt : String) (c : Rat) :
    find_wallet (apply_add_balance s uid wt c) uid wt
      = (find_wallet s uid wt).map (fun w => { w with balance := w.balance + c }) := by
  by_cases hm : wt ∈ get_income_wallet_types
  · have hne : ¬(uid = uid ∧ wt = "total_income") := by
      rintro ⟨-, h2⟩
      exact mem_income_ne_total_income wt hm h2
    simp only [apply_add_balance, if_pos hm]
    rw [find_wallet_adjust_ne _ _ _ _ _ _ hne, find_wallet_adjust_self]
  · simp only [apply_add_balance, if_neg hm]
    exact find_wallet_adjust_self s uid wt c

lemma find_wallet_apply_add_other (s : WalletStore) (uid : Nat) (wt : String) (c : Rat)
    (uid' : Nat) (wt' : String) (h : ¬(uid' = uid ∧ wt' = wt))
    (h2 : wt' ≠ "total_income") :
    find_wallet (apply_add_balance s uid wt c) uid' wt' = find_wallet s uid' wt' := by
  by_cases hm : wt ∈ get_income_wallet_types
  · simp only [apply_add_balance, if_pos hm]
    rw [find_wallet_adjust_ne _ _ _ _ _ _ (by rintro ⟨-, hb⟩; exact h2 hb),
        find_wallet_adjust_ne _ _ _ _ _ _ h]
  · simp only [apply_add_balance, if_neg hm]
    exact find_wallet_adjust_ne _ _ _ _ _ _ h

lemma find_wallet_apply_add_total_income (s : WalletStore) (uid : Nat) (wt : String)
    (c : Rat) (hm : wt ∈ get_income_wallet_types) :
    find_wallet (apply_add_balance s uid wt c) uid "total_income"
      = (find_wallet s uid "total_income").map
          (fun w => { w with balance := w.balance + c }) := by
  have hni : ¬(uid = uid ∧ ("total_income" : String) = wt) := by
    rintro ⟨-, hb⟩
    exact mem_income_ne_total_income wt hm hb.symm
  simp only [apply_add_balance, if_pos hm]
  rw [find_wallet_adjust_self, find_wallet_adjust_ne _ _ _ _ _ _ hni]

lemma balanceOf_apply_add_self (s : WalletStore) (uid : Nat) (wt : String) (c : Rat)
    (w : Wallet) (h : find_wallet s uid wt = some w) :
    balanceOf (apply_add_balance s uid wt c) uid wt = balanceOf s uid wt + c := by
  simp [balanceOf, find_wallet_apply_add_self, h]

lemma balanceOf_apply_add_other (s : WalletStore) (uid : Nat) (wt : String) (c : Rat)
    (uid' : Nat) (wt' : String) (h : ¬(uid' = uid ∧ wt' = wt))
    (h2 : wt' ≠ "total_income") :
    balanceOf (apply_add_balance s uid wt c) uid' wt' = balanceOf s uid' wt' := by
  simp [balanceOf, find_wallet_apply_add_other s uid wt c uid' wt' h h2]

lemma balanceOf_foc_other (s : WalletStore) (uid : Nat) (wt : String)
    (uid' : Nat) (wt' : String) (h : ¬(uid' = uid ∧ wt' = wt)) :
    balanceOf (find_or_create_wallet s uid wt) uid' wt' = balanceOf s uid' wt' := by
  simp [balanceOf, find_wallet_foc_other s uid wt uid' wt' h]

lemma find_user_add_earnings_eq (users : List UserRec) (rid : Nat) (c : Rat) :
    find_user (add_user_earnings users rid c) rid
      = (find_user users rid).map
          (fun u => { u with total_earnings := u.total_earnings + c }) := by
  induction users with
  | nil => rfl
  | cons u us ih =>
      by_cases h : u.id = rid
      · simp [find_user, add_user_earnings, h]
      · simp [find_user, add_user_earnings, h, ih]

lemma find_user_add_earnings_ne (users : List UserRec) (rid : Nat) (c : Rat)
    (uid : Nat) (h : uid ≠ rid) :
    find_user (add_user_earnings users rid c) uid = find_user users uid := by
  have ha : ¬(rid = uid) := fun e => h e.symm
  induction users with
  | nil => rfl
  | cons u us ih =>
      by_cases h1 : u.id = rid
      · have h2 : ¬(u.id = uid) := fun hb => h (hb.symm.trans h1)
        simp [find_user, add_user_earnings, h1, h2, ha]
      · by_cases h2 : u.id = uid
        · simp [find_user, add_user_earnings, h1, h2, ha, h]
        · simp [find_user, add_user_earnings, h1, h2, ha, h, ih]

lemma find_user_add_earnings_active (users : List UserRec) (rid : Nat) (c : Rat)
    (uid : Nat) (u : UserRec) (h : find_user users uid = some u) :
    ∃ u', find_user (add_user_earnings users rid c) uid = some u'
          ∧ u'.is_active = u.is_active := by
  by_cases hq : uid = rid
  · subst hq
    rw [find_user_add_earnings_eq, h]
    exact ⟨_, rfl, rfl⟩
  · rw [find_user_add_earnings_ne _ _ _ _ hq]
    exact ⟨u, h, rfl⟩

/-- C6: a position is selected for a return on date D iff it is ACTIVE,
returns_start_date ≤ D, maturity_date > D (strictly) and
last_return_date is null or earlier than D; and a position on or past
its maturity_date never accrues a return. -/
theorem eligibility_predicate_spec (invs : List UserInvestment)
    (inv : UserInvestment) (d : Int) :
    (inv ∈ get_eligible_investments d invs ↔
       inv ∈ invs ∧ inv.status = InvestmentStatus.ACTIVE ∧
         inv.returns_start_date ≤ d ∧ d < inv.maturity_date ∧
         (inv.last_return_date = none ∨
            ∃ l, inv.last_return_date = some l ∧ l < d))
    ∧ (inv.maturity_date ≤ d → accrue_investment d inv = (inv, [])) := by
  constructor
  · rw [get_eligible_investments, List.mem_filter]
    constructor
    · rintro ⟨hm, he⟩
      refine ⟨hm, ?_⟩
      simp only [eligible_for_return, Bool.and_eq_true, decide_eq_true_eq] at he
      obtain ⟨⟨⟨h1, h2⟩, h3⟩, h4⟩ := he
      refine ⟨h1, h2, h3, ?_⟩
      cases hl : inv.last_return_date with
      | none => exact Or.inl rfl
      | some l =>
          right
          refine ⟨l, rfl, ?_⟩
          rw [hl] at h4
          simpa using h4
    · rintro ⟨hm, h1, h2, h3, h4⟩
      refine ⟨hm, ?_⟩
      simp only [eligible_for_return, Bool.and_eq_true, decide_eq_true_eq]
      refine ⟨⟨⟨h1, h2⟩, h3⟩, ?_⟩
      rcases h4 with h4 | ⟨l, hl, hld⟩
      · simp [h4]
      · simp [hl, hld]
  · intro hmat
    unfold accrue_investment
    rw [if_neg]
    simp only [eligible_for_return, Bool.and_eq_true, decide_eq_true_eq]
    rintro ⟨⟨⟨-, -⟩, h3⟩, -⟩
    omega

/-- C6 witness: the predicate evaluated on concrete positions. -/
theorem eligibility_predicate_spec_witness :
    invA ∈ get_eligible_investments 5 [invA]
    ∧ accrue_investment 200 invM = (invM, []) := by
  constructor
  · exact (eligibility_predicate_spec [invA] invA 5).1.mpr
      ⟨by simp, by decide, by decide, by decide, Or.inl (by decide)⟩
  · exact (eligibility_predicate_spec [invM] invM 200).2 (by decide)

/-- C7: settling a MATURED position with the available_fund disposition
credits principal * (1 - fee/100) to the available_fund wallet and marks
the position CANCELLED; keep_invested marks it CANCELLED with no money
movement; settling a non-MATURED position is rejected. -/
theorem settlement_spec (inv : UserInvestment) (w : Wallet) (dest : Option Wallet)
    (f : Rat) (hf : 0 ≤ f) :
    (inv.status = InvestmentStatus.MATURED →
       settle_matured_investment inv (some w) "available_fund" f
         = Except.ok
             { investment := { inv with status := InvestmentStatus.CANCELLED },
               dest_wallet :=
                 some { w with balance := w.balance + inv.amount_invested * (1 - f / 100) },
               principal_returned := inv.amount_invested * (1 - f / 100),
               settlement_fee := inv.amount_invested * f / 100 })
    ∧ (inv.status = InvestmentStatus.MATURED →
       settle_matured_investment inv dest "keep_invested" f
         = Except.ok
             { investment := { inv with status := InvestmentStatus.CANCELLED },
               dest_wallet := dest,
               principal_returned := inv.amount_invested,
               settlement_fee := inv.amount_invested * f / 100 })
    ∧ (inv.status ≠ InvestmentStatus.MATURED →
       ∀ opt d2, settle_matured_investment inv d2 opt f
         = Except.error "Investment is not matured yet") := by
  have e1 : inv.amount_invested * (1 - f / 100)
      = inv.amount_invested - inv.amount_invested * f / 100 := by ring
  refine ⟨?_, ?_, ?_⟩
  · intro hm
    rw [e1]
    by_cases hf0 : 0 < f
    · simp [settle_matured_investment, hm, if_pos hf0]
    · have hz : f = 0 := le_antisymm (not_lt.mp hf0) hf
      subst hz
      simp [settle_matured_investment, hm]
  · intro hm
    by_cases hf0 : 0 < f
    · simp [settle_matured_investment, hm, if_pos hf0]
    · have hz : f = 0 := le_antisymm (not_lt.mp hf0) hf
      subst hz
      simp [settle_matured_investment, hm]
  · intro hm opt d2
    simp [settle_matured_investment, hm]

/-- C7 witness: the spec scenario, a MATURED 200-unit position settled to
available_fund with a 2 percent fee credits 196 and cancels the position,
keep_invested moves no money, and an ACTIVE position is rejected. -/
theorem settlement_spec_witness :
    (0 : Rat) ≤ 2
    ∧ ((invM.status = InvestmentStatus.MATURED →
          settle_matured_investment invM
              (some { user_id := 3, wallet_type := "available_fund",
                      balance := 0, locked_balance := 0 }) "available_fund" 2
            = Except.ok
                { investment := { invM with status := InvestmentStatus.CANCELLED },
                  dest_wallet :=
                    some { user_id := 3, wallet_type := "available_fund",
                           balance := 0 + invM.amount_invested * (1 - 2 / 100),
                           locked_balance := 0 },
                  principal_returned := invM.amount_invested * (1 - 2 / 100),
                  settlement_fee := invM.amount_invested * 2 / 100 })
       ∧ (invM.status = InvestmentStatus.MATURED →
          settle_matured_investment invM none "keep_invested" 2
            = Except.ok
                { investment := { invM with status := InvestmentStatus.CANCELLED },
                  dest_wallet := none,
                  principal_returned := invM.amount_invested,
                  settlement_fee := invM.amount_invested * 2 / 100 })
       ∧ (invM.status ≠ InvestmentStatus.MATURED →
          ∀ opt d2, settle_matured_investment invM d2 opt 2
            = Except.error "Investment is not matured yet")) :=
  ⟨by norm_num,
   settlement_spec invM
     { user_id := 3, wallet_type := "available_fund", balance := 0, locked_balance := 0 }
     none 2 (by norm_num)⟩

/-- C4: evaluation of the purchase path on a wallet with locked funds:
with balance 100 and locked_balance 60 the available balance is 40, yet
a purchase of 80 is accepted and debited, because the insufficient-funds
gate compares the raw balance (not balance - locked_balance) with the
amount. -/
theorem purchase_accepts_despite_insufficient_available_balance :
    Wallet.available_balance
        { user_id := 7, wallet_type := "available_fund",
          balance := 100, locked_balance := 60 } < 80
    ∧ purchase_investment 0 pkgA true
        { user_id := 7, wallet_type := "available_fund",
          balance := 100, locked_balance := 60 } 0 80
      = Except.ok
          ({ user_id := 7, wallet_type := "available_fund",
             balance := 20, locked_balance := 60 },
           { id := 0, user_id := 7, amount_invested := 80,
             returns_start_date := 1, maturity_date := 181,
             total_returns_paid := 0, last_return_date := none,
             status := InvestmentStatus.ACTIVE, package := some pkgA }) := by
  constructor
  · show (100 : Rat) - 60 < 80
    norm_num
  · norm_num [purchase_investment, pkgA, is_available_for_investment]

/-- C5: evaluation of the purchase debit on a wallet with locked funds:
balance 50, locked_balance 30, purchase 40 succeeds and leaves the
wallet at balance 10 with locked_balance 30, violating the invariant
balance ≥ locked_balance that every Wallet-model mutator preserves. -/
theorem purchase_debit_breaks_wallet_invariant :
    purchase_investment 0 pkgA true
        { user_id := 2, wallet_type := "available_fund",
          balance := 50, locked_balance := 30 } 0 40
      = Except.ok
          ({ user_id := 2, wallet_type := "available_fund",
             balance := 10, locked_balance := 30 },
           { id := 0, user_id := 2, amount_invested := 40,
             returns_start_date := 1, maturity_date := 181,
             total_returns_paid := 0, last_return_date := none,
             status := InvestmentStatus.ACTIVE, package := some pkgA })
    ∧ (Wallet.balance
         { user_id := 2, wallet_type := "available_fund",
           balance := 10, locked_balance := 30 }
       < Wallet.locked_balance
         { user_id := 2, wallet_type := "available_fund",
           balance := 10, locked_balance := 30 }) := by
  constructor
  · norm_num [purchase_investment, pkgA, is_available_for_investment]
  · show (10 : Rat) < 30
    norm_num

/-- C9: Wallet.add_balance on an existing wallet rejects a non-positive
amount; a positive credit bumps the wallet by exactly the amount, writes
one audit transaction, and when the credited type is an income type also
bumps the same user total_income wallet (when present) by the same
amount. -/
theorem add_balance_spec (s : WalletStore) (uid : Nat) (wt : String)
    (amount : Rat) (w : Wallet) (hw : find_wallet s uid wt = some w) :
    (amount ≤ 0 → add_balance s uid wt amount = none)
    ∧ (0 < amount →
        add_balance s uid wt amount
          = some (apply_add_balance s uid wt amount,
                  { user_id := uid, transaction_type := "credit",
                    wallet_type := wt, amount := amount })
        ∧ find_wallet (apply_add_balance s uid wt amount) uid wt
            = some { w with balance := w.balance + amount }
        ∧ (∀ tw, wt ∈ get_income_wallet_types →
             find_wallet s uid "total_income" = some tw →
             find_wallet (apply_add_balance s uid wt amount) uid "total_income"
               = some { tw with balance := tw.balance + amount })) := by
  constructor
  · intro h
    simp [add_balance, hw, h]
  · intro h
    refine ⟨?_, ?_, ?_⟩
    · simp [add_balance, hw, not_le.mpr h]
    · rw [find_wallet_apply_add_self, hw]
      rfl
    · intro tw hm htw
      rw [find_wallet_apply_add_total_income s uid wt amount hm, htw]
      rfl

/-- C9 witness: crediting 3 to the total_gain wallet of user 1 in the
concrete store bumps total_gain from 5 to 8 and total_income from 7
to 10, with one audit transaction. -/
theorem add_balance_spec_witness :
    find_wallet storeA 1 "total_gain"
      = some { user_id := 1, wallet_type := "total_gain",
               balance := 5, locked_balance := 0 }
    ∧ (((3 : Rat) ≤ 0 → add_balance storeA 1 "total_gain" 3 = none)
       ∧ ((0 : Rat) < 3 →
           add_balance storeA 1 "total_gain" 3
             = some (apply_add_balance storeA 1 "total_gain" 3,
                     { user_id := 1, transaction_type := "credit",
                       wallet_type := "total_gain", amount := 3 })
           ∧ find_wallet (apply_add_balance storeA 1 "total_gain" 3) 1 "total_gain"
               = some { user_id := 1, wallet_type := "total_gain",
                        balance := 5 + 3, locked_balance := 0 }
           ∧ (∀ tw, ("total_gain" : String) ∈ get_income_wallet_types →
                find_wallet storeA 1 "total_income" = some tw →
                find_wallet (apply_add_balance storeA 1 "total_gain" 3) 1 "total_income"
                  = some { tw with balance := tw.balance + 3 }))) :=
  ⟨by rfl,
   add_balance_spec storeA 1 "total_gain" 3
     { user_id := 1, wallet_type := "total_gain", balance := 5, locked_balance := 0 }
     (by rfl)⟩

/-- C10: a successful manual distribution on date d stamps the position
with last_return_date = d, so the position fails the accrual eligibility
filter for d and the scheduled engine neither selects it nor pays it
anything further that day. -/
theorem manual_distribution_consumes_idempotence_token
    (inv inv2 : UserInvestment) (row : InvestmentReturn) (amount : Rat)
    (d : Int) (h : manual_distribute_returns inv amount d = some (inv2, row)) :
    inv2.last_return_date = some d
    ∧ eligible_for_return inv2 d = false
    ∧ (∀ invs, inv2 ∉ get_eligible_investments d invs)
    ∧ accrue_investment d inv2 = (inv2, []) := by
  have hlast : inv2.last_return_date = some d := by
    unfold manual_distribute_returns at h
    by_cases h0 : amount ≤ 0
    · simp [h0] at h
    · rw [if_neg h0] at h
      cases hp : inv.package with
      | none => rw [hp] at h; simp at h
      | some pkg =>
          simp only [hp] at h
          by_cases h1 : returns_remaining inv pkg < amount
          · simp [h1] at h
          · rw [if_neg h1] at h
            simp only [process_investment_return, Option.some.injEq,
              Prod.mk.injEq] at h
            rw [← h.1]
  have helig : eligible_for_return inv2 d = false := by
    unfold eligible_for_return
    rw [hlast]
    simp
  refine ⟨hlast, helig, ?_, ?_⟩
  · intro invs hmem
    rw [get_eligible_investments, List.mem_filter] at hmem
    rw [helig] at hmem
    exact Bool.false_ne_true hmem.2
  · unfold accrue_investment
    rw [helig]
    simp

/-- C10 witness: manually distributing 10 to the concrete fresh position
on day 3 stamps it with last_return_date = 3 and removes it from the
day-3 accrual. -/
theorem manual_distribution_consumes_idempotence_token_witness :
    manual_distribute_returns invA 10 3 = some (invA_stamped, rowA)
    ∧ invA_stamped.last_return_date = some 3
    ∧ eligible_for_return invA_stamped 3 = false
    ∧ (∀ invs, invA_stamped ∉ get_eligible_investments 3 invs)
    ∧ accrue_investment 3 invA_stamped = (invA_stamped, []) := by
  have hm : manual_distribute_returns invA 10 3 = some (invA_stamped, rowA) := by
    norm_num [manual_distribute_returns, invA, pkgA, invA_stamped, rowA,
      returns_remaining, expected_total_return, process_investment_return]
  have hc := manual_distribution_consumes_idempotence_token invA invA_stamped rowA
    10 3 hm
  exact ⟨hm, hc.1, hc.2.1, hc.2.2.1, hc.2.2.2⟩

/-- C1: the daily amount is the duration spread clamped by the remaining
expected return and floored at 0; both the scheduled accrual and a manual
distribution keep total_returns_paid within
amount_invested * total_return_percentage / 100, and a manual
distribution above the remaining returns is rejected. -/
theorem accrual_cap_invariant (inv : UserInvestment) (pkg : InvestmentPackage)
    (amount : Rat) (d : Int) (hpkg : inv.package = some pkg)
    (hcap : inv.total_returns_paid
              ≤ inv.amount_invested * (pkg.total_return_percentage / 100)) :
    (0 < pkg.duration_days → 0 ≤ pkg.total_return_percentage →
       calculate_daily_return inv
         = max 0 (min (inv.amount_invested * (pkg.total_return_percentage / 100)
                         / (pkg.duration_days : Rat))
                      (expected_total_return inv pkg - inv.total_returns_paid)))
    ∧ (accrue_investment d inv).1.total_returns_paid
        ≤ inv.amount_invested * (pkg.total_return_percentage / 100)
    ∧ (returns_remaining inv pkg < amount →
        manual_distribute_returns inv amount d = none)
    ∧ (∀ inv2 row, manual_distribute_returns inv amount d = some (inv2, row) →
        inv2.total_returns_paid
          ≤ inv.amount_invested * (pkg.total_return_percentage / 100)) := by
  have hremnn : (0 : Rat) ≤ inv.amount_invested * (pkg.total_return_percentage / 100)
      - inv.total_returns_paid := sub_nonneg.mpr hcap
  have key : 0 < calculate_daily_return inv →
      inv.total_returns_paid + calculate_daily_return inv
        ≤ inv.amount_invested * (pkg.total_return_percentage / 100) := by
    intro hpos
    have hle : calculate_daily_return inv
        ≤ inv.amount_invested * (pkg.total_return_percentage / 100)
          - inv.total_returns_paid := by
      simp only [calculate_daily_return, hpkg]
      by_cases h1 : pkg.duration_days ≤ 0
      · rw [if_pos h1]; exact hremnn
      · rw [if_neg h1]
        by_cases h2 : pkg.total_return_percentage < 0
        · rw [if_pos h2]; exact hremnn
        · rw [if_neg h2]
          exact max_le hremnn (min_le_right _ _)
    linarith
  refine ⟨?_, ?_, ?_, ?_⟩
  · intro hd hp
    simp only [calculate_daily_return, hpkg]
    rw [if_neg (not_le.mpr hd), if_neg (not_lt.mpr hp)]
  · unfold accrue_investment
    by_cases helig : eligible_for_return inv d = true
    · rw [if_pos helig]
      by_cases hpos : 0 < calculate_daily_return inv
      · rw [if_pos hpos]
        simpa [process_investment_return] using key hpos
      · rw [if_neg hpos]
        exact hcap
    · rw [if_neg helig]
      exact hcap
  · intro hlt
    have h0 : (0 : Rat) < amount := lt_of_le_of_lt (le_max_left 0 _) hlt
    unfold manual_distribute_returns
    rw [if_neg (not_le.mpr h0)]
    simp only [hpkg]
    rw [if_pos hlt]
  · intro inv2 row h
    unfold manual_distribute_returns at h
    by_cases h0 : amount ≤ 0
    · simp [h0] at h
    · rw [if_neg h0] at h
      simp only [hpkg] at h
      by_cases h1 : returns_remaining inv pkg < amount
      · simp [h1] at h
      · rw [if_neg h1] at h
        simp only [process_investment_return, Option.some.injEq,
          Prod.mk.injEq] at h
        rw [← h.1]
        have hub : amount ≤ inv.amount_invested * (pkg.total_return_percentage / 100)
            - inv.total_returns_paid := by
          have := not_lt.mp h1
          rwa [returns_remaining, expected_total_return,
            max_eq_right hremnn] at this
        show inv.total_returns_paid + amount
            ≤ inv.amount_invested * (pkg.total_return_percentage / 100)
        linarith

/-- C1 witness: the cap conjunction evaluated on the concrete fresh
200-unit position in pkgA with a 60-unit manual distribution attempt. -/
theorem accrual_cap_invariant_witness :
    invA.package = some pkgA
    ∧ invA.total_returns_paid
        ≤ invA.amount_invested * (pkgA.total_return_percentage / 100)
    ∧ ((0 < pkgA.duration_days → 0 ≤ pkgA.total_return_percentage →
          calculate_daily_return invA
            = max 0 (min (invA.amount_invested * (pkgA.total_return_percentage / 100)
                            / (pkgA.duration_days : Rat))
                         (expected_total_return invA pkgA - invA.total_returns_paid)))
       ∧ (accrue_investment 0 invA).1.total_returns_paid
           ≤ invA.amount_invested * (pkgA.total_return_percentage / 100)
       ∧ (returns_remaining invA pkgA < 60 →
           manual_distribute_returns invA 60 0 = none)
       ∧ (∀ inv2 row, manual_distribute_returns invA 60 0 = some (inv2, row) →
           inv2.total_returns_paid
             ≤ invA.amount_invested * (pkgA.total_return_percentage / 100))) :=
  ⟨rfl, by norm_num [invA, pkgA],
   accrual_cap_invariant invA pkgA 60 0 rfl (by norm_num [invA, pkgA])⟩

lemma update_investment_status_idem (d : Int) (inv : UserInvestment) :
    update_investment_status d (update_investment_status d inv)
      = update_investment_status d inv := by
  unfold update_investment_status
  by_cases h : inv.status = InvestmentStatus.ACTIVE ∧ inv.maturity_date ≤ d
  · rw [if_pos h, if_neg]
    rintro ⟨hc, -⟩
    simp at hc
  · rw [if_neg h, if_neg h]

lemma calculate_daily_cons (d : Int) (x : UserInvestment) (xs : List UserInvestment) :
    calculate_daily_investment_returns d (x :: xs)
      = (update_investment_status d (accrue_investment d x).1
           :: (calculate_daily_investment_returns d xs).1,
         (accrue_investment d x).2 ++ (calculate_daily_investment_returns d xs).2) := by
  simp [calculate_daily_investment_returns]

lemma accrue_then_idle (d : Int) (inv : UserInvestment) :
    accrue_investment d (update_investment_status d (accrue_investment d inv).1)
      = (update_investment_status d (accrue_investment d inv).1, []) := by
  by_cases hE : eligible_for_return inv d = true
  · have hfacts := hE
    simp only [eligible_for_return, Bool.and_eq_true, decide_eq_true_eq] at hfacts
    obtain ⟨⟨⟨hstat, hstart⟩, hmat⟩, hlast⟩ := hfacts
    by_cases hP : 0 < calculate_daily_return inv
    · have hacc : (accrue_investment d inv).1
          = { inv with
                total_returns_paid := inv.total_returns_paid + calculate_daily_return inv,
                last_return_date := some d } := by
        simp [accrue_investment, hE, hP, process_investment_return]
      rw [hacc]
      have hupd : update_investment_status d
          { inv with
              total_returns_paid := inv.total_returns_paid + calculate_daily_return inv,
              last_return_date := some d }
          = { inv with
              total_returns_paid := inv.total_returns_paid + calculate_daily_return inv,
              last_return_date := some d } := by
        unfold update_investment_status
        rw [if_neg]
        rintro ⟨-, hc⟩
        simp only [] at hc
        exact absurd hmat (not_lt.mpr hc)
      rw [hupd]
      have hnelig : eligible_for_return
          { inv with
              total_returns_paid := inv.total_returns_paid + calculate_daily_return inv,
              last_return_date := some d } d = false := by
        simp [eligible_for_return, lt_irrefl]
      simp [accrue_investment, hnelig]
    · have hacc : (accrue_investment d inv).1 = inv := by
        simp [accrue_investment, hE, hP]
      rw [hacc]
      have hupd : update_investment_status d inv = inv := by
        unfold update_investment_status
        rw [if_neg]
        rintro ⟨-, hc⟩
        exact absurd hmat (not_lt.mpr hc)
      rw [hupd]
      simp [accrue_investment, hE, hP]
  · have hacc : (accrue_investment d inv).1 = inv := by
      simp [accrue_investment, hE]
    rw [hacc]
    have hEf : eligible_for_return inv d = false := by
      revert hE
      cases eligible_for_return inv d <;> simp
    by_cases hcond : inv.status = InvestmentStatus.ACTIVE ∧ inv.maturity_date ≤ d
    · have hupd : update_investment_status d inv
          = { inv with status := InvestmentStatus.MATURED } := by
        simp [update_investment_status, hcond]
      rw [hupd]
      have hnelig : eligible_for_return
          { inv with status := InvestmentStatus.MATURED } d = false := by
        simp [eligible_for_return]
      simp [accrue_investment, hnelig]
    · have hupd : update_investment_status d inv = inv := by
        simp [update_investment_status, hcond]
      rw [hupd]
      simp [accrue_investment, hEf]

/-- C2: the daily accrual is idempotent for a fixed date: running the
engine a second time on the output of the first run leaves every
position (and so every total_returns_paid) unchanged and logs no new
InvestmentReturn row, because a paid position is stamped with
last_return_date = d and the eligibility filter requires
last_return_date < d. -/
theorem daily_accrual_idempotent (d : Int) (invs : List UserInvestment) :
    calculate_daily_investment_returns d
        (calculate_daily_investment_returns d invs).1
      = ((calculate_daily_investment_returns d invs).1,
         ([] : List InvestmentReturn)) := by
  induction invs with
  | nil => rfl
  | cons x xs ih =>
      simp only [calculate_daily_cons, accrue_then_idle,
        update_investment_status_idem, ih, List.nil_append, List.append_nil]

lemma chain_loop_length (users : List UserRec) (nid : Nat) :
    ∀ fuel cur level visited,
      (create_referral_chain_loop users nid fuel cur level visited).length ≤ fuel := by
  intro fuel
  induction fuel with
  | zero =>
      intro cur level visited
      simp [create_referral_chain_loop]
  | succ n ih =>
      intro cur level visited
      cases cur with
      | none => simp [create_referral_chain_loop]
      | some sid =>
          by_cases h : sid ∈ visited
          · simp [create_referral_chain_loop, h]
          · have := ih ((find_user users sid).bind (fun u => u.sponsor_id))
              (level + 1) (sid :: visited)
            simp only [create_referral_chain_loop, if_neg h, List.length_cons]
            omega

lemma chain_loop_levels (users : List UserRec) (nid : Nat) :
    ∀ fuel cur level visited,
      (create_referral_chain_loop users nid fuel cur level visited).map
          (fun e => e.level)
        = List.range' level
            (create_referral_chain_loop users nid fuel cur level visited).length := by
  intro fuel
  induction fuel with
  | zero =>
      intro cur level visited
      simp [create_referral_chain_loop]
  | succ n ih =>
      intro cur level visited
      cases cur with
      | none => simp [create_referral_chain_loop]
      | some sid =>
          by_cases h : sid ∈ visited
          · simp [create_referral_chain_loop, h]
          · simp only [create_referral_chain_loop, if_neg h, List.map_cons,
              List.length_cons, List.range'_succ]
            exact congrArg (List.cons level)
              (ih ((find_user users sid).bind (fun u => u.sponsor_id))
                (level + 1) (sid :: visited))

lemma chain_loop_nodup (users : List UserRec) (nid : Nat) :
    ∀ fuel cur level visited,
      ((create_referral_chain_loop users nid fuel cur level visited).map
          (fun e => e.referrer_id)).Nodup
      ∧ ∀ x ∈ (create_referral_chain_loop users nid fuel cur level visited).map
            (fun e => e.referrer_id), x ∉ visited := by
  intro fuel
  induction fuel with
  | zero =>
      intro cur level visited
      simp [create_referral_chain_loop]
  | succ n ih =>
      intro cur level visited
      cases cur with
      | none => simp [create_referral_chain_loop]
      | some sid =>
          by_cases h : sid ∈ visited
          · simp [create_referral_chain_loop, h]
          · obtain ⟨hnd, hvis⟩ := ih ((find_user users sid).bind (fun u => u.sponsor_id))
              (level + 1) (sid :: visited)
            simp only [create_referral_chain_loop, if_neg h, List.map_cons,
              List.nodup_cons, List.mem_cons]
            refine ⟨⟨?_, hnd⟩, ?_⟩
            · intro hmem
              exact (hvis sid hmem) (List.mem_cons_self sid visited)
            · rintro x (rfl | hx)
              · exact h
              · intro hxv
                exact (hvis x hx) (List.mem_cons_of_mem sid hxv)

/-- C8: for every stored sponsor configuration, including cyclic sponsor
pointers, create_referral_chain with max_levels = 5 terminates with at
most 5 edges, the levels count consecutively from 1, and no sponsor id
is visited twice (a revisited sponsor ends the chain instead of
erroring). -/
theorem referral_chain_bounded_acyclic (users : List UserRec)
    (sponsor_id : Option Nat) (nid : Nat) :
    (create_referral_chain users sponsor_id nid 5).length ≤ 5
    ∧ (create_referral_chain users sponsor_id nid 5).map (fun e => e.level)
        = List.range' 1 (create_referral_chain users sponsor_id nid 5).length
    ∧ ((create_referral_chain users sponsor_id nid 5).map
          (fun e => e.referrer_id)).Nodup := by
  cases sponsor_id with
  | none => simp [create_referral_chain]
  | some sid =>
      unfold create_referral_chain
      exact ⟨chain_loop_length users nid 5 (some sid) 1 [],
             chain_loop_levels users nid 5 (some sid) 1 [],
             (chain_loop_nodup users nid 5 (some sid) 1 []).1⟩

/-- C8 witness: the bound evaluated on the concrete two-user sponsor
cycle. -/
theorem referral_chain_bounded_acyclic_witness :
    (create_referral_chain usersCyc (some 10) 99 5).length ≤ 5
    ∧ (create_referral_chain usersCyc (some 10) 99 5).map (fun e => e.level)
        = List.range' 1 (create_referral_chain usersCyc (some 10) 99 5).length
    ∧ ((create_referral_chain usersCyc (some 10) 99 5).map
          (fun e => e.referrer_id)).Nodup :=
  referral_chain_bounded_acyclic usersCyc (some 10) 99

lemma commission_wallet_type_ne_total_income (level : Nat) :
    commission_wallet_type level ≠ "total_income" := by
  unfold commission_wallet_type
  split <;> decide

lemma balanceOf_foc_self (s : WalletStore) (uid : Nat) (wt : String) :
    balanceOf (find_or_create_wallet s uid wt) uid wt = balanceOf s uid wt := by
  obtain ⟨w, hfind, hbal, -, -⟩ := find_wallet_foc_self s uid wt
  simp [balanceOf, hfind, hbal]

lemma balanceOf_credit_step (s : WalletStore) (uid : Nat) (wt : String) (c : Rat) :
    balanceOf
        (apply_add_balance (find_or_create_wallet s uid wt) uid wt c) uid wt
      = balanceOf s uid wt + c := by
  obtain ⟨w, hfind, hbal, -, -⟩ := find_wallet_foc_self s uid wt
  rw [balanceOf_apply_add_self _ _ _ _ w hfind, balanceOf_foc_self]

lemma balanceOf_credit_step_other (s : WalletStore) (uid : Nat) (wt : String)
    (c : Rat) (uid' : Nat) (wt' : String) (h : ¬(uid' = uid ∧ wt' = wt))
    (h2 : wt' ≠ "total_income") :
    balanceOf
        (apply_add_balance (find_or_create_wallet s uid wt) uid wt c) uid' wt'
      = balanceOf s uid' wt' := by
  rw [balanceOf_apply_add_other _ _ _ _ _ _ h h2, balanceOf_foc_other _ _ _ _ _ h]

lemma distribute_over_frame (amount : Rat) (rates : Nat → Rat) :
    ∀ (upline : List ReferralEdge) (users : List UserRec) (store : WalletStore)
      (uid : Nat) (wt : String), wt ≠ "total_income" →
      (∀ e ∈ upline, ¬(uid = e.referrer_id ∧ wt = commission_wallet_type e.level)) →
      balanceOf (distribute_over amount rates users store upline).2.1 uid wt
        = balanceOf store uid wt := by
  intro upline
  induction upline with
  | nil => intro users store uid wt hwt hkeys; rfl
  | cons e rest ih =>
      intro users store uid wt hwt hkeys
      have hkey := hkeys e (List.mem_cons_self e rest)
      have hkrest : ∀ e2 ∈ rest, ¬(uid = e2.referrer_id ∧ wt = commission_wallet_type e2.level) :=
        fun e2 he2 => hkeys e2 (List.mem_cons_of_mem e he2)
      by_cases hc : 0 < calculate_commission amount e.level rates
      · cases hu : find_user users e.referrer_id with
        | some u =>
            by_cases ha : u.is_active = true
            · simp only [distribute_over, if_pos hc, hu, ha, if_true]
              rw [ih _ _ _ _ hwt hkrest]
              exact balanceOf_credit_step_other store e.referrer_id
                (commission_wallet_type e.level) _ uid wt hkey hwt
            · simp only [distribute_over, if_pos hc, hu, if_neg ha]
              exact ih _ _ _ _ hwt hkrest
        | none =>
            simp only [distribute_over, if_pos hc, hu]
            exact ih _ _ _ _ hwt hkrest
      · simp only [distribute_over, if_neg hc]
        exact ih _ _ _ _ hwt hkrest

lemma distribute_over_records (amount : Rat) (rates : Nat → Rat) :
    ∀ (upline : List ReferralEdge) (users : List UserRec) (store : WalletStore),
      (∀ e ∈ upline, 0 < calculate_commission amount e.level rates) →
      (∀ e ∈ upline, ∃ u, find_user users e.referrer_id = some u ∧ u.is_active = true) →
      (distribute_over amount rates users store upline).2.2.2
        = upline.map (fun e =>
            { referrer_id := e.referrer_id, level := e.level,
              amount := calculate_commission amount e.level rates,
              wallet_type := commission_wallet_type e.level }) := by
  intro upline
  induction upline with
  | nil => intro users store h1 h2; rfl
  | cons e rest ih =>
      intro users store h1 h2
      have hc := h1 e (List.mem_cons_self e rest)
      obtain ⟨u, hu, ha⟩ := h2 e (List.mem_cons_self e rest)
      simp only [distribute_over, if_pos hc, hu, ha, if_true, List.map_cons]
      refine congrArg _ ?_
      refine ih _ _ (fun e2 he2 => h1 e2 (List.mem_cons_of_mem e he2)) ?_
      intro e2 he2
      obtain ⟨u2, hu2, ha2⟩ := h2 e2 (List.mem_cons_of_mem e he2)
      obtain ⟨u3, hu3, hact3⟩ :=
        find_user_add_earnings_active users e.referrer_id
          (calculate_commission amount e.level rates) e2.referrer_id u2 hu2
      exact ⟨u3, hu3, hact3.trans ha2⟩

lemma distribute_over_balances (amount : Rat) (rates : Nat → Rat) :
    ∀ (upline : List ReferralEdge) (users : List UserRec) (store : WalletStore),
      (∀ e ∈ upline, 0 < calculate_commission amount e.level rates) →
      (∀ e ∈ upline, ∃ u, find_user users e.referrer_id = some u ∧ u.is_active = true) →
      (upline.map (fun e => (e.referrer_id, commission_wallet_type e.level))).Nodup →
      ∀ e ∈ upline,
        balanceOf (distribute_over amount rates users store upline).2.1
            e.referrer_id (commission_wallet_type e.level)
          = balanceOf store e.referrer_id (commission_wallet_type e.level)
            + calculate_commission amount e.level rates := by
  intro upline
  induction upline with
  | nil => intro users store h1 h2 hnd e he; cases he
  | cons e0 rest ih =>
      intro users store h1 h2 hnd e he
      have hc0 := h1 e0 (List.mem_cons_self e0 rest)
      obtain ⟨u0, hu0, ha0⟩ := h2 e0 (List.mem_cons_self e0 rest)
      rw [List.map_cons, List.nodup_cons] at hnd
      obtain ⟨hhead, hndrest⟩ := hnd
      have h2rest : ∀ e2 ∈ rest, ∃ u, find_user
          (add_user_earnings users e0.referrer_id
            (calculate_commission amount e0.level rates)) e2.referrer_id = some u
          ∧ u.is_active = true := by
        intro e2 he2
        obtain ⟨u2, hu2, ha2⟩ := h2 e2 (List.mem_cons_of_mem e0 he2)
        obtain ⟨u3, hu3, hact3⟩ :=
          find_user_add_earnings_active users e0.referrer_id
            (calculate_commission amount e0.level rates) e2.referrer_id u2 hu2
        exact ⟨u3, hu3, hact3.trans ha2⟩
      simp only [distribute_over, if_pos hc0, hu0, ha0, if_true]
      rcases List.mem_cons.mp he with rfl | herest
      · rw [distribute_over_frame amount rates rest _ _ _ _
            (commission_wallet_type_ne_total_income e.level) ?_]
        · exact balanceOf_credit_step store e.referrer_id
            (commission_wallet_type e.level) _
        · intro e2 he2
          rintro ⟨hid, hwt⟩
          exact hhead (by
            rw [List.mem_map]
            exact ⟨e2, he2, by rw [← hid, ← hwt]⟩)
      · have hkey : ¬((e.referrer_id, commission_wallet_type e.level)
            = (e0.referrer_id, commission_wallet_type e0.level)) := by
          intro hEq
          exact hhead (by
            rw [List.mem_map, ← hEq]
            exact ⟨e, herest, rfl⟩)
        rw [ih _ _ (fun e2 he2 => h1 e2 (List.mem_cons_of_mem e0 he2))
            h2rest hndrest e herest]
        rw [balanceOf_credit_step_other store e0.referrer_id
            (commission_wallet_type e0.level) _ e.referrer_id
            (commission_wallet_type e.level)
            (by rintro ⟨hid, hwt⟩; exact hkey (by rw [hid, hwt]))
            (commission_wallet_type_ne_total_income e.level)]

lemma commission_sum (amount : Rat) (rates : Nat → Rat)
    (upline : List ReferralEdge) :
    (upline.map (fun e => calculate_commission amount e.level rates)).sum
      = amount * (upline.map (fun e => rates e.level)).sum / 100 := by
  induction upline with
  | nil => simp
  | cons e rest ih =>
      rw [List.map_cons, List.sum_cons, List.map_cons, List.sum_cons, ih,
        calculate_commission]
      ring

/-- C3: over an upline whose edges are active, whose referrers exist and
are active, whose per-level commissions are positive, and whose
(referrer, routed wallet) targets are pairwise distinct,
distribute_commissions pays every level exactly
amount * rate(level) / 100, routes level 1 to the total_referral wallet
and deeper levels to the level_bonus wallet (creating it when absent),
and the total paid out is amount * (sum of the rates) / 100. -/
theorem commission_conservation (users : List UserRec) (store : WalletStore)
    (upline : List ReferralEdge) (amount : Rat) (rates : Nat → Rat)
    (hact : ∀ e ∈ upline, e.is_active = true)
    (hpos : ∀ e ∈ upline, 0 < calculate_commission amount e.level rates)
    (href : ∀ e ∈ upline, ∃ u, find_user users e.referrer_id = some u
              ∧ u.is_active = true)
    (hnd : (upline.map (fun e => (e.referrer_id, commission_wallet_type e.level))).Nodup) :
    (distribute_commissions users store upline amount rates).2.2.2
        = upline.map (fun e =>
            { referrer_id := e.referrer_id, level := e.level,
              amount := calculate_commission amount e.level rates,
              wallet_type := commission_wallet_type e.level })
    ∧ (((distribute_commissions users store upline amount rates).2.2.2).map
          (fun r => r.amount)).sum
        = amount * (upline.map (fun e => rates e.level)).sum / 100
    ∧ ∀ e ∈ upline,
        balanceOf (distribute_commissions users store upline amount rates).2.1
            e.referrer_id (commission_wallet_type e.level)
          = balanceOf store e.referrer_id (commission_wallet_type e.level)
            + calculate_commission amount e.level rates := by
  have hfilter : upline.filter (fun e => e.is_active) = upline := by
    rw [List.filter_eq_self]
    simpa using hact
  have hrec := distribute_over_records amount rates upline users store hpos href
  refine ⟨?_, ?_, ?_⟩
  · unfold distribute_commissions
    rw [hfilter]
    exact hrec
  · unfold distribute_commissions
    rw [hfilter, hrec, List.map_map]
    exact commission_sum amount rates upline
  · intro e he
    unfold distribute_commissions
    rw [hfilter]
    exact distribute_over_balances amount rates upline users store hpos href hnd e he

/-- C3 witness: the spec scenario, a purchase of 1000 with upline
referrer 1 at level 1 and referrer 2 at level 2 under the default rates,
starting from an empty wallet store: 100 lands in the total_referral
wallet of user 1, 50 in the level_bonus wallet of user 2, total 150. -/
theorem commission_conservation_witness :
    (∀ e ∈ uplineC3, e.is_active = true)
    ∧ (∀ e ∈ uplineC3, 0 < calculate_commission 1000 e.level default_commission_rates)
    ∧ (∀ e ∈ uplineC3, ∃ u, find_user usersC3 e.referrer_id = some u
         ∧ u.is_active = true)
    ∧ (uplineC3.map (fun e => (e.referrer_id, commission_wallet_type e.level))).Nodup
    ∧ ((distribute_commissions usersC3 [] uplineC3 1000 default_commission_rates).2.2.2
         = uplineC3.map (fun e =>
             { referrer_id := e.referrer_id, level := e.level,
               amount := calculate_commission 1000 e.level default_commission_rates,
               wallet_type := commission_wallet_type e.level })
       ∧ (((distribute_commissions usersC3 [] uplineC3 1000
              default_commission_rates).2.2.2).map (fun r => r.amount)).sum
           = 1000 * (uplineC3.map (fun e => default_commission_rates e.level)).sum / 100
       ∧ ∀ e ∈ uplineC3,
           balanceOf (distribute_commissions usersC3 [] uplineC3 1000
               default_commission_rates).2.1
               e.referrer_id (commission_wallet_type e.level)
             = balanceOf ([] : WalletStore) e.referrer_id (commission_wallet_type e.level)
               + calculate_commission 1000 e.level default_commission_rates) := by
  have h1 : ∀ e ∈ uplineC3, e.is_active = true := by
    intro e he
    simp only [uplineC3, List.mem_cons, List.not_mem_nil, or_false] at he
    rcases he with rfl | rfl <;> rfl
  have h2 : ∀ e ∈ uplineC3,
      0 < calculate_commission 1000 e.level default_commission_rates := by
    intro e he
    simp only [uplineC3, List.mem_cons, List.not_mem_nil, or_false] at he
    rcases he with rfl | rfl <;>
      norm_num [calculate_commission, default_commission_rates]
  have h3 : ∀ e ∈ uplineC3, ∃ u, find_user usersC3 e.referrer_id = some u
      ∧ u.is_active = true := by
    intro e he
    simp only [uplineC3, List.mem_cons, List.not_mem_nil, or_false] at he
    rcases he with rfl | rfl
    · exact ⟨_, rfl, rfl⟩
    · exact ⟨_, rfl, rfl⟩
  have h4 : (uplineC3.map
      (fun e => (e.referrer_id, commission_wallet_type e.level))).Nodup := by
    simp [uplineC3, commission_wallet_type]
  exact ⟨h1, h2, h3, h4,
    commission_conservation usersC3 [] uplineC3 1000 default_commission_rates
      h1 h2 h3 h4⟩
